import Mathlib

/-!
Verification of the home-gallery event core: event log removal
(`removeEvent`, from `packages/events/src/remove-event.ts`), the server-side
replay wrapper `applyEvents` (from `apply-events-server.js`) and the
content-hash stamping it performs, and the event merger.  Parts of the
events package that are only re-exported by the sources (the original
replay engine, the header validator, the merger, the reader and writer)
are modelled from the specification; their doc comments say so.
-/

namespace HomeGallery

/-- Event log header: schema version and log type, as in `header.js`
(`createHeader(logType, version)`). -/
structure EventHeader where
  version : Nat
  logType : String
deriving DecidableEq, Repr

/-- An event record: unique id, type tag, target entry id, opaque payload
(a tag name for the tag events) and creation timestamp.  Timestamps are
kept as strings, as in the persisted JSON shape. -/
structure Event where
  id : String
  type : String
  targetId : String
  payload : String
  createdAt : String
deriving DecidableEq, Repr

/-- A persisted event log: header plus the ordered event sequence
(the `data` field of the on-disk document). -/
structure EventLog where
  header : EventHeader
  data : List Event
deriving DecidableEq, Repr

/-- A file descriptor attached to an entry, mirroring the `files` element
shape of the `Taggable` interface. -/
structure FileRef where
  filepath : String
deriving DecidableEq, Repr

/-- A catalog entry ("Taggable" plus the persisted `hash` field):
id, updated timestamp, tags, bookkeeping set of applied event ids,
files, and the content hash. -/
structure Entry where
  id : String
  updated : String
  tags : List String
  appliedEventIds : List String
  files : List FileRef
  hash : String
deriving DecidableEq, Repr

/-- The database snapshot handed to the replay wrapper; `data` is the
entry list (`database.data` in `apply-events-server.js`). -/
structure Database where
  data : List Entry
deriving DecidableEq, Repr

/-- Modelled from the spec: `serialize(entry, excluded)` from
`@home-gallery/common` (not under the provided sources) canonicalizes the
entry by serializing all fields except the excluded ones (section 4.6).
Each kept field contributes its name and value; an excluded field
contributes nothing. -/
def serialize (entry : Entry) (excluded : List String) : String :=
  let field : String → String → String := fun name value =>
    if name ∈ excluded then "" else name ++ ":" ++ value ++ ";"
  field "id" entry.id
    ++ field "updated" entry.updated
    ++ field "tags" (String.intercalate "," entry.tags)
    ++ field "appliedEventIds" (String.intercalate "," entry.appliedEventIds)
    ++ field "files" (String.intercalate "," (entry.files.map FileRef.filepath))
    ++ field "hash" entry.hash

/-- Modelled from the spec: `createHash` from `@home-gallery/common` (not
under the provided sources) applies a stable cryptographic digest to the
serialized form (section 4.6).  Only its determinism matters to the
verified properties, so it is modelled as a deterministic injective
encoding of its input. -/
def createHash (s : String) : String :=
  "sha1:" ++ s

/-- Modelled from the spec: the pure per-event mutation table of the
replay engine (section 4.5 step 3 and the section 8 example scenario):
`addTag` adds the payload tag, `removeTag` removes it, any other type
leaves the entry fields unchanged. -/
def applyMutation (ev : Event) (entry : Entry) : Entry :=
  if ev.type = "addTag" then
    { entry with
        tags := if ev.payload ∈ entry.tags then entry.tags
                else entry.tags ++ [ev.payload] }
  else if ev.type = "removeTag" then
    { entry with tags := entry.tags.filter (fun t => t ≠ ev.payload) }
  else entry

/-- Modelled from the spec: the entry produced by applying one new event
(section 4.5 step 3): the mutated fields, the event id recorded into
`appliedEventIds`, and `updated` set to the event's `createdAt`. -/
def updatedEntry (ev : Event) (entry : Entry) : Entry :=
  { applyMutation ev entry with
      appliedEventIds := entry.appliedEventIds ++ [ev.id],
      updated := ev.createdAt }

/-- Modelled from the spec: one step of the replay engine of
`@home-gallery/events` (section 4.5, steps 1 to 4).  The accumulator is
the current entry list plus the ids of entries changed so far (collected
in first-change order, deduplicated).  Resolve the target; skip if
absent; skip if the event id is already recorded; otherwise apply the
mutation, record the event id and set `updated` to the event's
`createdAt`. -/
def applyEventStep : List Entry × List String → Event → List Entry × List String :=
  fun acc ev =>
    match acc.1.find? (fun entry => entry.id = ev.targetId) with
    | none => acc
    | some entry =>
      if ev.id ∈ entry.appliedEventIds then acc
      else
        (acc.1.map (fun x => if x.id = ev.targetId then updatedEntry ev entry else x),
         if ev.targetId ∈ acc.2 then acc.2 else acc.2 ++ [ev.targetId])

/-- Modelled from the spec: `applyEvents` of `@home-gallery/events`
(imported as `applyEventsOrig` by `apply-events-server.js`; its source is
not under the provided files).  Replays the ordered event sequence over
the entry list and returns the final entries together with the changed
entry ids.  The log path argument of the original is used only for
logging and is omitted. -/
def applyEventsOrig (data : List Entry) (events : List Event) : List Entry × List String :=
  events.foldl applyEventStep (data, [])

/-- Recompute the content hash of an entry, as done by
`apply-events-server.js`: `entry.hash = createHash(serialize(entry,
['hash', 'appliedEventIds']))`. -/
def rehashEntry (entry : Entry) : Entry :=
  { entry with hash := createHash (serialize entry ["hash", "appliedEventIds"]) }

/-- The server-side replay wrapper of `apply-events-server.js`: run the
replay engine over `database.data`, restamp the hash of every changed
entry, and return the changed entries.  Because the original mutates the
shared entry objects in place, the restamped entries are also the ones
left in the database; the returned list holds, for each changed id in
first-change order, the final restamped entry. -/
def applyEvents (database : Database) (events : List Event) : Database × List Entry :=
  let r := applyEventsOrig database.data events
  let newData := r.1.map (fun e => if e.id ∈ r.2 then rehashEntry e else e)
  (⟨newData⟩, r.2.filterMap (fun i => newData.find? (fun e => e.id = i)))

/-- The result of `removeEvent`, mirroring the three observably distinct
JavaScript return values of `remove-event.ts`: a bare `return` (the
`undefined` value) when the log file is absent, `null` when no event
matches, and the removed event record otherwise. -/
inductive RemoveResult where
  | noFile
  | notFound
  | removed (e : Event)
deriving DecidableEq, Repr

/-- Modelled from the spec: `writeEvents(path, events)` of
`append-event.js` (not under the provided sources) replaces the full
event sequence, header preserved (section 4.3).  On the file-state model
it replaces the `data` field of the stored log. -/
def writeEventsLog (log : EventLog) (events : List Event) : EventLog :=
  { log with data := events }

/-- The `removeEvent` operation of `remove-event.ts`, over a file-state
model: the state of the log file at the path is `none` when the file is
absent and `some log` when it exists with the parsed content `log`
(the spec-modelled `readEvents` of section 4.2 yields that content).
Mirrors the source line by line: if the file does not exist, bare return
(`noFile`); otherwise filter the events whose id equals the target id;
if none match, return `null` without rewriting; otherwise rewrite the
file with the remaining events via `writeEvents` and return the first
removed record. -/
def removeEvent (file : Option EventLog) (eventToRemove : Event) :
    Option EventLog × RemoveResult :=
  match file with
  | none => (none, RemoveResult.noFile)
  | some fileEvents =>
    let targetId := eventToRemove.id
    let removedEvents := fileEvents.data.filter (fun ev => ev.id = targetId)
    match removedEvents with
    | [] => (some fileEvents, RemoveResult.notFound)
    | r :: _ =>
      let remaining := fileEvents.data.filter (fun ev => ev.id ≠ targetId)
      (some (writeEventsLog fileEvents remaining), RemoveResult.removed r)

/-- Modelled from the spec: `isEventTypeCompatible` of `header.js` (not
under the provided sources): two headers are compatible iff they have the
same log type and both versions lie within the supported range
(section 3 and 4.1).  The supported range is modelled as versions 1 to 2. -/
def isEventTypeCompatible (a b : EventHeader) : Bool :=
  a.logType = b.logType
    && (1 ≤ a.version && a.version ≤ 2)
    && (1 ≤ b.version && b.version ≤ 2)

/-- Modelled from the spec: the merged header is the more specific of the
two compatible headers, with no version downgrade (section 4.4): same log
type, maximum version. -/
def mergedHeader (a b : EventHeader) : EventHeader :=
  { version := max a.version b.version, logType := a.logType }

/-- Modelled from the spec: the union step of the merger (section 4.4):
union events by id, duplicates collapsing to a single copy; the first
occurrence of each id is kept. -/
def unionById : List Event → List Event
  | [] => []
  | e :: rest => e :: (unionById rest).filter (fun x => x.id ≠ e.id)

/-- The deterministic total order of the merger: sort key `(createdAt, id)`
with ties broken on `id` (sections 4.4 and 9). -/
def eventLe (a b : Event) : Prop :=
  a.createdAt < b.createdAt ∨ (a.createdAt = b.createdAt ∧ a.id ≤ b.id)

instance : DecidableRel eventLe := fun a b => by
  unfold eventLe; infer_instance

/-- Sort an event sequence by the deterministic `(createdAt, id)` key. -/
def sortEvents (events : List Event) : List Event :=
  events.insertionSort eventLe

/-- Modelled from the spec: `mergeEvents(logA, logB)` of `merge-events.js`
(not under the provided sources): fail with `IncompatibleHeader` when the
headers are incompatible; otherwise union the events by id and sort the
union by `(createdAt, id)` (section 4.4). -/
def mergeEvents (logA logB : EventLog) : Except String EventLog :=
  if isEventTypeCompatible logA.header logB.header then
    Except.ok
      { header := mergedHeader logA.header logB.header,
        data := sortEvents (unionById (logA.data ++ logB.data)) }
  else
    Except.error "IncompatibleHeader"

/-! ### Helper lemmas -/

/-- Splitting a list by a predicate partitions its length. -/
theorem length_filter_not_add_length_filter {α : Type} (p : α → Bool) (l : List α) :
    (l.filter (fun a => !p a)).length + (l.filter p).length = l.length := by
  induction l with
  | nil => rfl
  | cons x xs ih =>
    cases h : p x <;> simp [List.filter_cons, h] <;> omega

/-- In a log whose event ids are pairwise distinct, filtering for the id of
a member event yields exactly that event. -/
theorem filter_eq_id_of_nodup (l : List Event) (e : Event)
    (hnd : (l.map Event.id).Nodup) (hmem : e ∈ l) :
    l.filter (fun ev => ev.id = e.id) = [e] := by
  induction l with
  | nil => cases hmem
  | cons x xs ih =>
    simp only [List.map_cons, List.nodup_cons] at hnd
    rcases List.mem_cons.mp hmem with h | h
    · subst h
      rw [List.filter_cons_of_pos (by simp)]
      have hnil : xs.filter (fun ev => ev.id = e.id) = [] := by
        rw [List.filter_eq_nil_iff]
        intro a ha hpa
        have hid : a.id = e.id := by simpa using hpa
        exact hnd.1 (hid ▸ List.mem_map_of_mem Event.id ha)
      rw [hnil]
    · have hxid : ¬(x.id = e.id) := by
        intro hx
        exact hnd.1 (hx ▸ List.mem_map_of_mem Event.id h)
      rw [List.filter_cons_of_neg (by simpa using hxid)]
      exact ih hnd.2 h

/-! ### Claims about removeEvent -/

/-- C6: on a path where no log file exists, `removeEvent` is a no-op: the
file state is unchanged (no file is created or written) and the result is
the bare return value, which signals nothing removed rather than an
error. -/
theorem removeEvent_absent_file_noop (eventToRemove : Event) :
    removeEvent none eventToRemove = (none, RemoveResult.noFile) := rfl

/-- C5: on an existing log whose events contain no event with the target
id, `removeEvent` returns null and leaves the on-disk log untouched. -/
theorem removeEvent_unknown_id (log : EventLog) (eventToRemove : Event)
    (h : log.data.filter (fun ev => ev.id = eventToRemove.id) = []) :
    removeEvent (some log) eventToRemove = (some log, RemoveResult.notFound) := by
  simp only [removeEvent, h]

/-- Witness for C5 at a concrete log without the target id. -/
theorem removeEvent_unknown_id_witness :
    (EventLog.mk ⟨1, "events"⟩
        [⟨"e1", "addTag", "x", "beach", "t1"⟩]).data.filter
        (fun ev => ev.id = (Event.mk "e9" "addTag" "x" "sea" "t2").id) = [] ∧
    removeEvent (some (EventLog.mk ⟨1, "events"⟩ [⟨"e1", "addTag", "x", "beach", "t1"⟩]))
        (Event.mk "e9" "addTag" "x" "sea" "t2") =
      (some (EventLog.mk ⟨1, "events"⟩ [⟨"e1", "addTag", "x", "beach", "t1"⟩]),
       RemoveResult.notFound) :=
  ⟨by decide,
   removeEvent_unknown_id (EventLog.mk ⟨1, "events"⟩ [⟨"e1", "addTag", "x", "beach", "t1"⟩])
     (Event.mk "e9" "addTag" "x" "sea" "t2") (by decide)⟩

/-- A single matching event makes `removeEvent` rewrite the file to the
non-matching events and return that record; the log shrinks by one. -/
theorem removeEvent_of_filter_single (log : EventLog) (eventToRemove : Event) (e : Event)
    (h : log.data.filter (fun ev => ev.id = eventToRemove.id) = [e]) :
    removeEvent (some log) eventToRemove =
      (some { header := log.header,
              data := log.data.filter (fun ev => ev.id ≠ eventToRemove.id) },
       RemoveResult.removed e) ∧
    (log.data.filter (fun ev => ev.id ≠ eventToRemove.id)).length + 1 = log.data.length := by
  constructor
  · simp only [removeEvent, h, writeEventsLog]
  · have hp := length_filter_not_add_length_filter
      (fun ev => decide (ev.id = eventToRemove.id)) log.data
    rw [h] at hp
    have hne : log.data.filter (fun ev => ev.id ≠ eventToRemove.id) =
        log.data.filter (fun ev => !decide (ev.id = eventToRemove.id)) := by
      apply List.filter_congr
      intro a _
      simp
    rw [hne]
    simpa using hp

/-- C4: on an existing log containing exactly one event with the target
id, `removeEvent` rewrites the file to exactly the other events, in their
original relative order (the filter keeps the original order), and
returns the removed record. -/
theorem removeEvent_single_match (log : EventLog) (eventToRemove : Event) (e : Event)
    (h : log.data.filter (fun ev => ev.id = eventToRemove.id) = [e]) :
    removeEvent (some log) eventToRemove =
      (some { header := log.header,
              data := log.data.filter (fun ev => ev.id ≠ eventToRemove.id) },
       RemoveResult.removed e) ∧
    (log.data.filter (fun ev => ev.id ≠ eventToRemove.id)).length + 1 = log.data.length :=
  removeEvent_of_filter_single log eventToRemove e h

/-- Witness for C4 at a concrete two-event log with one matching event. -/
theorem removeEvent_single_match_witness :
    (EventLog.mk ⟨1, "events"⟩
        [⟨"e1", "addTag", "x", "beach", "t1"⟩,
         ⟨"e2", "addTag", "y", "sea", "t2"⟩]).data.filter
        (fun ev => ev.id = (Event.mk "e1" "addTag" "x" "beach" "t1").id) =
      [⟨"e1", "addTag", "x", "beach", "t1"⟩] ∧
    removeEvent
        (some (EventLog.mk ⟨1, "events"⟩
          [⟨"e1", "addTag", "x", "beach", "t1"⟩,
           ⟨"e2", "addTag", "y", "sea", "t2"⟩]))
        (Event.mk "e1" "addTag" "x" "beach" "t1") =
      (some { header := ⟨1, "events"⟩,
              data := (EventLog.mk ⟨1, "events"⟩
                [⟨"e1", "addTag", "x", "beach", "t1"⟩,
                 ⟨"e2", "addTag", "y", "sea", "t2"⟩]).data.filter
                (fun ev => ev.id ≠ (Event.mk "e1" "addTag" "x" "beach" "t1").id) },
       RemoveResult.removed ⟨"e1", "addTag", "x", "beach", "t1"⟩) :=
  ⟨by decide,
   (removeEvent_single_match
     (EventLog.mk ⟨1, "events"⟩
       [⟨"e1", "addTag", "x", "beach", "t1"⟩, ⟨"e2", "addTag", "y", "sea", "t2"⟩])
     (Event.mk "e1" "addTag" "x" "beach" "t1")
     ⟨"e1", "addTag", "x", "beach", "t1"⟩ (by decide)).1⟩

/-- C9: `removeEvent` distinguishes its two nothing-removed outcomes by
its return value: an absent file yields the bare return value (JavaScript
`undefined`), an existing file without the target id yields null, and the
two results are observably different to the caller. -/
theorem removeEvent_return_distinguishes (log : EventLog) (eventToRemove : Event)
    (h : log.data.filter (fun ev => ev.id = eventToRemove.id) = []) :
    (removeEvent none eventToRemove).2 = RemoveResult.noFile ∧
    (removeEvent (some log) eventToRemove).2 = RemoveResult.notFound ∧
    RemoveResult.noFile ≠ RemoveResult.notFound := by
  refine ⟨rfl, ?_, by decide⟩
  simp only [removeEvent, h]

/-- Witness for C9 at a concrete log without the target id. -/
theorem removeEvent_return_distinguishes_witness :
    (EventLog.mk ⟨1, "events"⟩
        [⟨"e1", "addTag", "x", "beach", "t1"⟩]).data.filter
        (fun ev => ev.id = (Event.mk "e9" "addTag" "x" "sea" "t2").id) = [] ∧
    (removeEvent none (Event.mk "e9" "addTag" "x" "sea" "t2")).2 = RemoveResult.noFile ∧
    (removeEvent (some (EventLog.mk ⟨1, "events"⟩ [⟨"e1", "addTag", "x", "beach", "t1"⟩]))
        (Event.mk "e9" "addTag" "x" "sea" "t2")).2 = RemoveResult.notFound ∧
    RemoveResult.noFile ≠ RemoveResult.notFound :=
  ⟨by decide,
   removeEvent_return_distinguishes
     (EventLog.mk ⟨1, "events"⟩ [⟨"e1", "addTag", "x", "beach", "t1"⟩])
     (Event.mk "e9" "addTag" "x" "sea" "t2") (by decide)⟩

/-- C10: when the log violates the no-duplicate-id invariant and holds two
or more events with the target id, `removeEvent` removes every one of
them — the rewritten file keeps exactly the events whose id differs, and
the log shrinks by the number of matching records — and returns the first
matching event in log order. -/
theorem removeEvent_duplicate_ids (log : EventLog) (eventToRemove : Event)
    (e1 e2 : Event) (rest : List Event)
    (h : log.data.filter (fun ev => ev.id = eventToRemove.id) = e1 :: e2 :: rest) :
    removeEvent (some log) eventToRemove =
      (some { header := log.header,
              data := log.data.filter (fun ev => ev.id ≠ eventToRemove.id) },
       RemoveResult.removed e1) ∧
    (log.data.filter (fun ev => ev.id ≠ eventToRemove.id)).length + (rest.length + 2) =
      log.data.length := by
  constructor
  · simp only [removeEvent, h, writeEventsLog]
  · have hp := length_filter_not_add_length_filter
      (fun ev => decide (ev.id = eventToRemove.id)) log.data
    rw [h] at hp
    have hne : log.data.filter (fun ev => ev.id ≠ eventToRemove.id) =
        log.data.filter (fun ev => !decide (ev.id = eventToRemove.id)) := by
      apply List.filter_congr
      intro a _
      simp
    rw [hne]
    simpa using hp

/-- Witness for C10 at a concrete log holding two events with the same id. -/
theorem removeEvent_duplicate_ids_witness :
    (EventLog.mk ⟨1, "events"⟩
        [⟨"e1", "addTag", "x", "beach", "t1"⟩,
         ⟨"e2", "addTag", "y", "sea", "t2"⟩,
         ⟨"e1", "removeTag", "x", "beach", "t3"⟩]).data.filter
        (fun ev => ev.id = (Event.mk "e1" "addTag" "x" "beach" "t1").id) =
      ⟨"e1", "addTag", "x", "beach", "t1"⟩ :: ⟨"e1", "removeTag", "x", "beach", "t3"⟩ :: [] ∧
    removeEvent
        (some (EventLog.mk ⟨1, "events"⟩
          [⟨"e1", "addTag", "x", "beach", "t1"⟩,
           ⟨"e2", "addTag", "y", "sea", "t2"⟩,
           ⟨"e1", "removeTag", "x", "beach", "t3"⟩]))
        (Event.mk "e1" "addTag" "x" "beach" "t1") =
      (some { header := ⟨1, "events"⟩,
              data := (EventLog.mk ⟨1, "events"⟩
                [⟨"e1", "addTag", "x", "beach", "t1"⟩,
                 ⟨"e2", "addTag", "y", "sea", "t2"⟩,
                 ⟨"e1", "removeTag", "x", "beach", "t3"⟩]).data.filter
                (fun ev => ev.id ≠ (Event.mk "e1" "addTag" "x" "beach" "t1").id) },
       RemoveResult.removed ⟨"e1", "addTag", "x", "beach", "t1"⟩) :=
  ⟨by decide,
   (removeEvent_duplicate_ids
     (EventLog.mk ⟨1, "events"⟩
       [⟨"e1", "addTag", "x", "beach", "t1"⟩,
        ⟨"e2", "addTag", "y", "sea", "t2"⟩,
        ⟨"e1", "removeTag", "x", "beach", "t3"⟩])
     (Event.mk "e1" "addTag" "x" "beach" "t1")
     ⟨"e1", "addTag", "x", "beach", "t1"⟩ ⟨"e1", "removeTag", "x", "beach", "t3"⟩ []
     (by decide)).1⟩

/-- C7: on a log with pairwise distinct event ids that contains the
target event, calling `removeEvent` twice with the same target returns
the event on the first call and null on the second, the second call
leaves the file untouched, and the log shrinks by exactly one record in
total. -/
theorem removeEvent_twice_idempotent (log : EventLog) (eventToRemove : Event)
    (hnd : (log.data.map Event.id).Nodup) (hmem : eventToRemove ∈ log.data) :
    (removeEvent (some log) eventToRemove).2 = RemoveResult.removed eventToRemove ∧
    removeEvent (removeEvent (some log) eventToRemove).1 eventToRemove =
      ((removeEvent (some log) eventToRemove).1, RemoveResult.notFound) ∧
    ∃ log1, (removeEvent (some log) eventToRemove).1 = some log1 ∧
      log1.data.length + 1 = log.data.length := by
  have hone := filter_eq_id_of_nodup log.data eventToRemove hnd hmem
  obtain ⟨hcall, hlen⟩ :=
    removeEvent_of_filter_single log eventToRemove eventToRemove hone
  have hnil : (log.data.filter (fun ev => ev.id ≠ eventToRemove.id)).filter
      (fun ev => ev.id = eventToRemove.id) = [] := by
    rw [List.filter_eq_nil_iff]
    intro a ha hpa
    have h1 : a.id ≠ eventToRemove.id := by
      simpa using (List.mem_filter.mp ha).2
    exact h1 (by simpa using hpa)
  refine ⟨by rw [hcall], ?_, ?_⟩
  · rw [hcall]
    simp only [removeEvent, hnil]
  · rw [hcall]
    exact ⟨_, rfl, hlen⟩

/-- Witness for C7 at a concrete duplicate-free two-event log. -/
theorem removeEvent_twice_idempotent_witness :
    ((EventLog.mk ⟨1, "events"⟩
        [⟨"e1", "addTag", "x", "beach", "t1"⟩,
         ⟨"e2", "addTag", "y", "sea", "t2"⟩]).data.map Event.id).Nodup ∧
    (Event.mk "e1" "addTag" "x" "beach" "t1") ∈
      (EventLog.mk ⟨1, "events"⟩
        [⟨"e1", "addTag", "x", "beach", "t1"⟩,
         ⟨"e2", "addTag", "y", "sea", "t2"⟩]).data ∧
    ((removeEvent (some (EventLog.mk ⟨1, "events"⟩
        [⟨"e1", "addTag", "x", "beach", "t1"⟩,
         ⟨"e2", "addTag", "y", "sea", "t2"⟩]))
        (Event.mk "e1" "addTag" "x" "beach" "t1")).2 =
      RemoveResult.removed (Event.mk "e1" "addTag" "x" "beach" "t1") ∧
    removeEvent (removeEvent (some (EventLog.mk ⟨1, "events"⟩
        [⟨"e1", "addTag", "x", "beach", "t1"⟩,
         ⟨"e2", "addTag", "y", "sea", "t2"⟩]))
        (Event.mk "e1" "addTag" "x" "beach" "t1")).1
        (Event.mk "e1" "addTag" "x" "beach" "t1") =
      ((removeEvent (some (EventLog.mk ⟨1, "events"⟩
        [⟨"e1", "addTag", "x", "beach", "t1"⟩,
         ⟨"e2", "addTag", "y", "sea", "t2"⟩]))
        (Event.mk "e1" "addTag" "x" "beach" "t1")).1, RemoveResult.notFound) ∧
    ∃ log1, (removeEvent (some (EventLog.mk ⟨1, "events"⟩
        [⟨"e1", "addTag", "x", "beach", "t1"⟩,
         ⟨"e2", "addTag", "y", "sea", "t2"⟩]))
        (Event.mk "e1" "addTag" "x" "beach" "t1")).1 = some log1 ∧
      log1.data.length + 1 =
        (EventLog.mk ⟨1, "events"⟩
          [⟨"e1", "addTag", "x", "beach", "t1"⟩,
           ⟨"e2", "addTag", "y", "sea", "t2"⟩]).data.length) :=
  ⟨by decide, by decide,
   removeEvent_twice_idempotent
     (EventLog.mk ⟨1, "events"⟩
       [⟨"e1", "addTag", "x", "beach", "t1"⟩, ⟨"e2", "addTag", "y", "sea", "t2"⟩])
     (Event.mk "e1" "addTag" "x" "beach" "t1") (by decide) (by decide)⟩

/-! ### Claims about the content hash -/

/-- C3: the content hash ignores bookkeeping: two entries whose fields
agree except possibly on `hash` and `appliedEventIds` get the same
`createHash` of the serialization that excludes those two fields, so the
hash does not depend on the recorded event history. -/
theorem createHash_ignores_bookkeeping (e1 e2 : Entry)
    (hid : e1.id = e2.id) (hupd : e1.updated = e2.updated)
    (htags : e1.tags = e2.tags) (hfiles : e1.files = e2.files) :
    createHash (serialize e1 ["hash", "appliedEventIds"]) =
      createHash (serialize e2 ["hash", "appliedEventIds"]) := by
  simp only [serialize, createHash]
  rw [hid, hupd, htags, hfiles]
  simp

/-- Witness for C3 at two concrete entries differing only in `hash` and
`appliedEventIds`. -/
theorem createHash_ignores_bookkeeping_witness :
    (Entry.mk "x" "t1" ["beach"] ["e1"] [⟨"a.jpg"⟩] "h1").id =
      (Entry.mk "x" "t1" ["beach"] ["e1", "e2"] [⟨"a.jpg"⟩] "h2").id ∧
    (Entry.mk "x" "t1" ["beach"] ["e1"] [⟨"a.jpg"⟩] "h1").updated =
      (Entry.mk "x" "t1" ["beach"] ["e1", "e2"] [⟨"a.jpg"⟩] "h2").updated ∧
    (Entry.mk "x" "t1" ["beach"] ["e1"] [⟨"a.jpg"⟩] "h1").tags =
      (Entry.mk "x" "t1" ["beach"] ["e1", "e2"] [⟨"a.jpg"⟩] "h2").tags ∧
    (Entry.mk "x" "t1" ["beach"] ["e1"] [⟨"a.jpg"⟩] "h1").files =
      (Entry.mk "x" "t1" ["beach"] ["e1", "e2"] [⟨"a.jpg"⟩] "h2").files ∧
    createHash (serialize (Entry.mk "x" "t1" ["beach"] ["e1"] [⟨"a.jpg"⟩] "h1")
        ["hash", "appliedEventIds"]) =
      createHash (serialize (Entry.mk "x" "t1" ["beach"] ["e1", "e2"] [⟨"a.jpg"⟩] "h2")
        ["hash", "appliedEventIds"]) :=
  ⟨rfl, rfl, rfl, rfl,
   createHash_ignores_bookkeeping
     (Entry.mk "x" "t1" ["beach"] ["e1"] [⟨"a.jpg"⟩] "h1")
     (Entry.mk "x" "t1" ["beach"] ["e1", "e2"] [⟨"a.jpg"⟩] "h2")
     rfl rfl rfl rfl⟩

/-- Restamping the hash does not change the hash input, because the
serialization excludes the `hash` field. -/
theorem serialize_rehashEntry (e : Entry) :
    serialize (rehashEntry e) ["hash", "appliedEventIds"] =
      serialize e ["hash", "appliedEventIds"] := by
  simp [serialize, rehashEntry]

/-- C2: every entry returned by the replay wrapper `applyEvents` leaves
with a freshly recomputed hash: its `hash` field equals the digest of its
serialization with the `hash` and `appliedEventIds` fields excluded. -/
theorem applyEvents_hash_recomputed (database : Database) (events : List Event) :
    ∀ entry ∈ (applyEvents database events).2,
      entry.hash = createHash (serialize entry ["hash", "appliedEventIds"]) := by
  intro entry hmem
  simp only [applyEvents, List.mem_filterMap] at hmem
  obtain ⟨i, hi, hfind⟩ := hmem
  have hpred : entry.id = i := by simpa using List.find?_some hfind
  have hmemData := List.mem_of_find?_eq_some hfind
  rw [List.mem_map] at hmemData
  obtain ⟨e0, _, heq⟩ := hmemData
  have hids : entry.id = e0.id := by
    rw [← heq]
    split <;> rfl
  have hcin : e0.id ∈ (applyEventsOrig database.data events).2 := by
    rw [← hids, hpred]
    exact hi
  rw [if_pos hcin] at heq
  rw [← heq, serialize_rehashEntry]
  rfl

/-- Witness for C2: a concrete replay changes one entry and that entry
comes back with the recomputed content hash. -/
theorem applyEvents_hash_recomputed_witness :
    (Entry.mk "x" "t1" ["beach"] ["e1"] [⟨"a.jpg"⟩]
        "sha1:id:x;updated:t1;tags:beach;files:a.jpg;") ∈
      (applyEvents (Database.mk [⟨"x", "t0", [], [], [⟨"a.jpg"⟩], "h0"⟩])
        [⟨"e1", "addTag", "x", "beach", "t1"⟩]).2 ∧
    (Entry.mk "x" "t1" ["beach"] ["e1"] [⟨"a.jpg"⟩]
        "sha1:id:x;updated:t1;tags:beach;files:a.jpg;").hash =
      createHash (serialize
        (Entry.mk "x" "t1" ["beach"] ["e1"] [⟨"a.jpg"⟩]
          "sha1:id:x;updated:t1;tags:beach;files:a.jpg;")
        ["hash", "appliedEventIds"]) :=
  ⟨by decide,
   applyEvents_hash_recomputed
     (Database.mk [⟨"x", "t0", [], [], [⟨"a.jpg"⟩], "h0"⟩])
     [⟨"e1", "addTag", "x", "beach", "t1"⟩]
     (Entry.mk "x" "t1" ["beach"] ["e1"] [⟨"a.jpg"⟩]
       "sha1:id:x;updated:t1;tags:beach;files:a.jpg;")
     (by decide)⟩

/-! ### Replay idempotency -/

/-- An event is already absorbed by an entry list: either its target id
resolves to no entry, or the resolved entry has the event id recorded. -/
def applied (data : List Entry) (ev : Event) : Prop :=
  ∀ entry, data.find? (fun x => x.id = ev.targetId) = some entry →
    ev.id ∈ entry.appliedEventIds

/-- The per-event mutation table never changes the entry id. -/
theorem applyMutation_id (ev : Event) (entry : Entry) :
    (applyMutation ev entry).id = entry.id := by
  unfold applyMutation
  by_cases h1 : ev.type = "addTag" <;> by_cases h2 : ev.type = "removeTag" <;>
    simp [h1, h2]

/-- A step on an absorbed event is a no-op. -/
theorem applyEventStep_skip (acc : List Entry × List String) (ev : Event)
    (h : applied acc.1 ev) : applyEventStep acc ev = acc := by
  unfold applyEventStep
  cases hf : acc.1.find? (fun entry => entry.id = ev.targetId) with
  | none => rfl
  | some entry => simp [h entry hf]

/-- Replaying a sequence of absorbed events is a no-op. -/
theorem foldl_applyEventStep_skip (evs : List Event) :
    ∀ acc : List Entry × List String, (∀ ev ∈ evs, applied acc.1 ev) →
      evs.foldl applyEventStep acc = acc := by
  induction evs with
  | nil => intro acc _; rfl
  | cons e rest ih =>
    intro acc h
    rw [List.foldl_cons, applyEventStep_skip acc e (h e (by simp))]
    exact ih acc fun ev hev => h ev (by simp [hev])

/-- Resolution monotonicity between two entry lists: an unresolved target
stays unresolved, and a resolved entry resolves to an entry whose set of
applied event ids is at least as large. -/
def findMono (d d2 : List Entry) : Prop :=
  ∀ t : String,
    (d.find? (fun x => x.id = t) = none → d2.find? (fun x => x.id = t) = none) ∧
    ∀ e, d.find? (fun x => x.id = t) = some e →
      ∃ e2, d2.find? (fun x => x.id = t) = some e2 ∧
        ∀ i ∈ e.appliedEventIds, i ∈ e2.appliedEventIds

theorem findMono_refl (d : List Entry) : findMono d d :=
  fun _ => ⟨fun h => h, fun e he => ⟨e, he, fun _ hi => hi⟩⟩

theorem findMono_trans {d1 d2 d3 : List Entry}
    (h12 : findMono d1 d2) (h23 : findMono d2 d3) : findMono d1 d3 := by
  intro t
  refine ⟨fun h => (h23 t).1 ((h12 t).1 h), fun e he => ?_⟩
  obtain ⟨e2, he2, hsub⟩ := (h12 t).2 e he
  obtain ⟨e3, he3, hsub2⟩ := (h23 t).2 e2 he2
  exact ⟨e3, he3, fun i hi => hsub2 i (hsub i hi)⟩

/-- Mapping a function that keeps ids commutes with resolution. -/
theorem find?_map_of_id_pres (d : List Entry) (g : Entry → Entry)
    (hg : ∀ x, (g x).id = x.id) (t : String) :
    (d.map g).find? (fun x => x.id = t) = (d.find? (fun x => x.id = t)).map g := by
  have hp : ((fun x : Entry => decide (x.id = t)) ∘ g) =
      fun x : Entry => decide (x.id = t) := by
    funext x
    simp [Function.comp, hg x]
  rw [List.find?_map, hp]

/-- Mapping a function that keeps ids and applied event ids is
resolution-monotone. -/
theorem findMono_map_of_pres (d : List Entry) (g : Entry → Entry)
    (hid : ∀ x, (g x).id = x.id)
    (happ : ∀ x, (g x).appliedEventIds = x.appliedEventIds) :
    findMono d (d.map g) := by
  intro t
  constructor
  · intro h
    rw [find?_map_of_id_pres d g hid t, h]
    rfl
  · intro e he
    refine ⟨g e, ?_, ?_⟩
    · rw [find?_map_of_id_pres d g hid t, he]
      rfl
    · intro i hi
      rw [happ e]
      exact hi

/-- One replay step is resolution-monotone. -/
theorem applyEventStep_findMono (acc : List Entry × List String) (ev : Event) :
    findMono acc.1 (applyEventStep acc ev).1 := by
  unfold applyEventStep
  cases hf : acc.1.find? (fun entry => entry.id = ev.targetId) with
  | none => exact findMono_refl acc.1
  | some entry =>
    by_cases ha : ev.id ∈ entry.appliedEventIds
    · simp only [if_pos ha]
      exact findMono_refl acc.1
    · simp only [if_neg ha]
      have hentry : entry.id = ev.targetId := by simpa using List.find?_some hf
      have hidf : ∀ x : Entry,
          ((fun x => if x.id = ev.targetId then updatedEntry ev entry else x) x).id = x.id := by
        intro x
        by_cases hx : x.id = ev.targetId
        · simp only [if_pos hx]
          show (applyMutation ev entry).id = x.id
          rw [applyMutation_id, hentry, hx]
        · simp only [if_neg hx]
      intro t
      constructor
      · intro h
        rw [find?_map_of_id_pres acc.1 _ hidf t, h]
        rfl
      · intro e he
        refine ⟨_, by rw [find?_map_of_id_pres acc.1 _ hidf t, he]; rfl, ?_⟩
        intro i hi
        by_cases hx : e.id = ev.targetId
        · have hte : t = ev.targetId := by
            have h1 : e.id = t := by simpa using List.find?_some he
            rw [← h1, hx]
          rw [hte, hf] at he
          have hee : e = entry := (Option.some.inj he).symm
          simp only [if_pos hx]
          show i ∈ (updatedEntry ev entry).appliedEventIds
          have : i ∈ entry.appliedEventIds := hee ▸ hi
          exact List.mem_append_left _ this
        · simp only [if_neg hx]
          exact hi

/-- After a step, the step's own event is absorbed. -/
theorem applyEventStep_applied (acc : List Entry × List String) (ev : Event) :
    applied (applyEventStep acc ev).1 ev := by
  unfold applyEventStep
  cases hf : acc.1.find? (fun entry => entry.id = ev.targetId) with
  | none =>
    intro e2 h2
    rw [hf] at h2
    cases h2
  | some entry =>
    by_cases ha : ev.id ∈ entry.appliedEventIds
    · simp only [if_pos ha]
      intro e2 h2
      have : entry = e2 := Option.some.inj (hf ▸ h2)
      exact this ▸ ha
    · simp only [if_neg ha]
      have hentry : entry.id = ev.targetId := by simpa using List.find?_some hf
      have hidf : ∀ x : Entry,
          ((fun x => if x.id = ev.targetId then updatedEntry ev entry else x) x).id = x.id := by
        intro x
        by_cases hx : x.id = ev.targetId
        · simp only [if_pos hx]
          show (applyMutation ev entry).id = x.id
          rw [applyMutation_id, hentry, hx]
        · simp only [if_neg hx]
      intro e2 h2
      rw [find?_map_of_id_pres acc.1 _ hidf ev.targetId, hf] at h2
      have he2 : (if entry.id = ev.targetId then updatedEntry ev entry else entry) = e2 :=
        Option.some.inj h2
      rw [if_pos hentry] at he2
      rw [← he2]
      show ev.id ∈ entry.appliedEventIds ++ [ev.id]
      simp

/-- Absorption transfers along resolution monotonicity. -/
theorem applied_mono {d d2 : List Entry} {ev : Event}
    (h : applied d ev) (m : findMono d d2) : applied d2 ev := by
  intro e2 h2
  cases hf : d.find? (fun x => x.id = ev.targetId) with
  | none =>
    rw [(m ev.targetId).1 hf] at h2
    cases h2
  | some e =>
    obtain ⟨e2x, he2x, hsub⟩ := (m ev.targetId).2 e hf
    have : e2x = e2 := Option.some.inj (he2x ▸ h2)
    exact this ▸ hsub _ (h e hf)

/-- Replaying any event sequence is resolution-monotone. -/
theorem foldl_applyEventStep_findMono (evs : List Event) :
    ∀ acc : List Entry × List String,
      findMono acc.1 ((evs.foldl applyEventStep acc).1) := by
  induction evs with
  | nil => intro acc; exact findMono_refl acc.1
  | cons e rest ih =>
    intro acc
    rw [List.foldl_cons]
    exact findMono_trans (applyEventStep_findMono acc e) (ih (applyEventStep acc e))

/-- After replaying a sequence, every event of the sequence is absorbed. -/
theorem foldl_applyEventStep_applied (evs : List Event) :
    ∀ acc : List Entry × List String, ∀ ev ∈ evs,
      applied ((evs.foldl applyEventStep acc).1) ev := by
  induction evs with
  | nil => intro acc ev h; cases h
  | cons e rest ih =>
    intro acc ev hev
    rw [List.foldl_cons]
    rcases List.mem_cons.mp hev with rfl | h
    · exact applied_mono (applyEventStep_applied acc ev)
        (foldl_applyEventStep_findMono rest (applyEventStep acc ev))
    · exact ih (applyEventStep acc e) ev h

/-- C1: replay is idempotent: running `applyEvents` a second time with
the same event sequence over the database produced by the first run
returns an empty changed-entries list and leaves the entries identical,
because every event id is already recorded in its target entry's
`appliedEventIds`. -/
theorem applyEvents_replay_idempotent (database : Database) (events : List Event) :
    applyEvents (applyEvents database events).1 events =
      ((applyEvents database events).1, ([] : List Entry)) := by
  simp only [applyEvents]
  have hall : ∀ ev ∈ events,
      applied ((applyEventsOrig database.data events).1.map
        (fun e => if e.id ∈ (applyEventsOrig database.data events).2
          then rehashEntry e else e)) ev := by
    intro ev hev
    have h1 : applied ((applyEventsOrig database.data events).1) ev := by
      simpa only [applyEventsOrig] using
        foldl_applyEventStep_applied events (database.data, []) ev hev
    exact applied_mono h1
      (findMono_map_of_pres _ _
        (fun x => by by_cases hx : x.id ∈ (applyEventsOrig database.data events).2 <;>
          simp [hx, rehashEntry])
        (fun x => by by_cases hx : x.id ∈ (applyEventsOrig database.data events).2 <;>
          simp [hx, rehashEntry]))
  have h2 : applyEventsOrig
      ((applyEventsOrig database.data events).1.map
        (fun e => if e.id ∈ (applyEventsOrig database.data events).2
          then rehashEntry e else e)) events =
      (((applyEventsOrig database.data events).1.map
        (fun e => if e.id ∈ (applyEventsOrig database.data events).2
          then rehashEntry e else e)), ([] : List String)) := by
    simp only [applyEventsOrig]
    exact foldl_applyEventStep_skip events (_, ([] : List String)) hall
  simp only [h2]
  simp

/-! ### Merge commutativity -/

/-- The deterministic sort key of an event. -/
def eventKey (e : Event) : String × String :=
  (e.createdAt, e.id)

instance : IsTotal Event eventLe :=
  ⟨fun a b => by
    unfold eventLe
    rcases lt_trichotomy a.createdAt b.createdAt with h | h | h
    · exact Or.inl (Or.inl h)
    · rcases le_total a.id b.id with hi | hi
      · exact Or.inl (Or.inr ⟨h, hi⟩)
      · exact Or.inr (Or.inr ⟨h.symm, hi⟩)
    · exact Or.inr (Or.inl h)⟩

instance : IsTrans Event eventLe :=
  ⟨fun a b c hab hbc => by
    unfold eventLe at hab hbc ⊢
    rcases hab with h1 | ⟨hc1, hi1⟩ <;> rcases hbc with h2 | ⟨hc2, hi2⟩
    · exact Or.inl (lt_trans h1 h2)
    · exact Or.inl (hc2 ▸ h1)
    · exact Or.inl (hc1 ▸ h2)
    · exact Or.inr ⟨hc1.trans hc2, le_trans hi1 hi2⟩⟩

/-- Two events below each other in the merge order share the sort key. -/
theorem eventLe_antisymm_key {a b : Event} (h1 : eventLe a b) (h2 : eventLe b a) :
    eventKey a = eventKey b := by
  unfold eventLe at h1 h2
  unfold eventKey
  rcases h1 with h1 | ⟨hc1, hi1⟩ <;> rcases h2 with h2 | ⟨hc2, hi2⟩
  · exact absurd (lt_trans h1 h2) (lt_irrefl _)
  · exact absurd (hc2 ▸ h1) (lt_irrefl _)
  · exact absurd (hc1 ▸ h2) (lt_irrefl _)
  · rw [hc1, le_antisymm hi1 hi2]

/-- Every element of the union came from the concatenated input. -/
theorem mem_of_mem_unionById {l : List Event} {x : Event} (h : x ∈ unionById l) :
    x ∈ l := by
  induction l with
  | nil => cases h
  | cons e rest ih =>
    simp only [unionById] at h
    rcases List.mem_cons.mp h with rfl | h2
    · exact List.mem_cons_self _ _
    · exact List.mem_cons_of_mem _ (ih (List.mem_of_mem_filter h2))

/-- The union collapses duplicates: its event ids are pairwise distinct. -/
theorem nodup_ids_unionById (l : List Event) :
    ((unionById l).map Event.id).Nodup := by
  induction l with
  | nil => simp [unionById]
  | cons e rest ih =>
    simp only [unionById, List.map_cons, List.nodup_cons]
    constructor
    · intro hmem
      rw [List.mem_map] at hmem
      obtain ⟨a, ha, haid⟩ := hmem
      have hne : ¬(a.id = e.id) := by simpa using (List.mem_filter.mp ha).2
      exact hne haid
    · exact List.Nodup.sublist (((unionById rest).filter_sublist).map Event.id) ih

/-- When any two input events with equal id are equal, nothing is lost by
the union. -/
theorem mem_unionById_of_consistent {l : List Event}
    (hcons : ∀ a ∈ l, ∀ b ∈ l, a.id = b.id → a = b) {x : Event} (h : x ∈ l) :
    x ∈ unionById l := by
  induction l with
  | nil => cases h
  | cons e rest ih =>
    simp only [unionById]
    rcases List.mem_cons.mp h with rfl | h2
    · exact List.mem_cons_self _ _
    · by_cases hx : x.id = e.id
      · have hxe : x = e :=
          hcons x (List.mem_cons_of_mem _ h2) e (List.mem_cons_self _ _) hx
        rw [hxe]
        exact List.mem_cons_self _ _
      · apply List.mem_cons_of_mem
        rw [List.mem_filter]
        exact ⟨ih (fun a ha b hb =>
          hcons a (List.mem_cons_of_mem _ ha) b (List.mem_cons_of_mem _ hb)) h2,
          by simpa using hx⟩

/-- In a log with pairwise distinct ids, the id determines the event. -/
theorem eq_of_nodup_ids {l : List Event} (hnd : (l.map Event.id).Nodup)
    {a b : Event} (ha : a ∈ l) (hb : b ∈ l) (hid : a.id = b.id) : a = b := by
  induction l with
  | nil => cases ha
  | cons e rest ih =>
    simp only [List.map_cons, List.nodup_cons] at hnd
    rcases List.mem_cons.mp ha with rfl | ha2 <;> rcases List.mem_cons.mp hb with rfl | hb2
    · rfl
    · exact absurd (show a.id ∈ rest.map Event.id by
        rw [hid]; exact List.mem_map_of_mem Event.id hb2) hnd.1
    · exact absurd (show b.id ∈ rest.map Event.id by
        rw [← hid]; exact List.mem_map_of_mem Event.id ha2) hnd.1
    · exact ih hnd.2 ha2 hb2

/-- Distinct ids give distinct sort keys. -/
theorem nodup_keys_of_nodup_ids (l : List Event)
    (h : (l.map Event.id).Nodup) : (l.map eventKey).Nodup := by
  have h2 : l.Pairwise (fun a b => a.id ≠ b.id) := List.pairwise_map.mp h
  have h3 : l.Pairwise (fun a b => eventKey a ≠ eventKey b) := by
    refine h2.imp ?_
    intro a b hne hkey
    exact hne (congrArg Prod.snd hkey)
  exact List.pairwise_map.mpr h3

/-- Sorted permutations with pairwise distinct sort keys are equal. -/
theorem eq_of_perm_sorted_nodup_keys (l1 : List Event) :
    ∀ l2 : List Event, l1.Perm l2 → l1.Sorted eventLe → l2.Sorted eventLe →
      (l1.map eventKey).Nodup → l1 = l2 := by
  induction l1 with
  | nil =>
    intro l2 hp _ _ _
    exact (hp.symm.eq_nil).symm
  | cons a t1 ih =>
    intro l2 hp hs1 hs2 hnd
    cases l2 with
    | nil => exact absurd hp.eq_nil (by simp)
    | cons b t2 =>
      by_cases hab : a = b
      · subst hab
        have hnd2 : (t1.map eventKey).Nodup := by
          simp only [List.map_cons, List.nodup_cons] at hnd
          exact hnd.2
        have ht : t1 = t2 := ih t2 hp.cons_inv hs1.of_cons hs2.of_cons hnd2
        rw [ht]
      · have haIn : a ∈ b :: t2 := hp.mem_iff.mp (List.mem_cons_self a t1)
        have hbIn : b ∈ a :: t1 := hp.mem_iff.mpr (List.mem_cons_self b t2)
        rcases List.mem_cons.mp haIn with h | haT2
        · exact absurd h hab
        rcases List.mem_cons.mp hbIn with h | hbT1
        · exact absurd h.symm hab
        have hle1 : eventLe a b := List.rel_of_sorted_cons hs1 b hbT1
        have hle2 : eventLe b a := List.rel_of_sorted_cons hs2 a haT2
        have hkey := eventLe_antisymm_key hle1 hle2
        simp only [List.map_cons, List.nodup_cons] at hnd
        exact absurd (show eventKey a ∈ t1.map eventKey by
          rw [hkey]; exact List.mem_map_of_mem eventKey hbT1) hnd.1

/-- Sorting by the deterministic key is invariant under permutation when
the keys are pairwise distinct. -/
theorem sortEvents_eq_of_perm {l1 l2 : List Event} (hp : l1.Perm l2)
    (hnd : (l1.map eventKey).Nodup) : sortEvents l1 = sortEvents l2 := by
  unfold sortEvents
  apply eq_of_perm_sorted_nodup_keys
  · exact (List.perm_insertionSort eventLe l1).trans
      (hp.trans (List.perm_insertionSort eventLe l2).symm)
  · exact List.sorted_insertionSort eventLe l1
  · exact List.sorted_insertionSort eventLe l2
  · exact (((List.perm_insertionSort eventLe l1).map eventKey).nodup_iff).mpr hnd

/-- C8: merging is commutative: for two event logs with compatible
headers (each satisfying the log invariant of pairwise distinct ids, with
ids consistent across the logs, as events are immutable and globally
unique by id), `mergeEvents A B` and `mergeEvents B A` succeed and
produce identical results — in particular the merged event sequences are
equal as sets and identical after the deterministic `(createdAt, id)`
sort, which the merger applies itself. -/
theorem mergeEvents_comm (A B : EventLog)
    (hcompat : isEventTypeCompatible A.header B.header = true)
    (hAnd : (A.data.map Event.id).Nodup)
    (hBnd : (B.data.map Event.id).Nodup)
    (hAB : ∀ a ∈ A.data, ∀ b ∈ B.data, a.id = b.id → a = b) :
    mergeEvents A B = mergeEvents B A ∧
    ∃ merged, mergeEvents A B = Except.ok merged := by
  have hparts := hcompat
  unfold isEventTypeCompatible at hparts
  simp only [Bool.and_eq_true, decide_eq_true_eq] at hparts
  obtain ⟨⟨hlt, hra⟩, hrb⟩ := hparts
  have hcompat2 : isEventTypeCompatible B.header A.header = true := by
    unfold isEventTypeCompatible
    simp only [Bool.and_eq_true, decide_eq_true_eq]
    exact ⟨⟨hlt.symm, hrb⟩, hra⟩
  have hh : mergedHeader A.header B.header = mergedHeader B.header A.header := by
    simp only [mergedHeader]
    rw [Nat.max_comm, hlt]
  have hconsAB : ∀ a ∈ A.data ++ B.data, ∀ b ∈ A.data ++ B.data,
      a.id = b.id → a = b := by
    intro a ha b hb hid
    rcases List.mem_append.mp ha with ha2 | ha2 <;>
      rcases List.mem_append.mp hb with hb2 | hb2
    · exact eq_of_nodup_ids hAnd ha2 hb2 hid
    · exact hAB a ha2 b hb2 hid
    · exact (hAB b hb2 a ha2 hid.symm).symm
    · exact eq_of_nodup_ids hBnd ha2 hb2 hid
  have hmemiff : ∀ x : Event, x ∈ B.data ++ A.data ↔ x ∈ A.data ++ B.data := by
    intro x
    constructor <;> intro h <;> rcases List.mem_append.mp h with h2 | h2
    · exact List.mem_append.mpr (Or.inr h2)
    · exact List.mem_append.mpr (Or.inl h2)
    · exact List.mem_append.mpr (Or.inr h2)
    · exact List.mem_append.mpr (Or.inl h2)
  have hconsBA : ∀ a ∈ B.data ++ A.data, ∀ b ∈ B.data ++ A.data,
      a.id = b.id → a = b := by
    intro a ha b hb hid
    exact hconsAB a ((hmemiff a).mp ha) b ((hmemiff b).mp hb) hid
  have hperm : (unionById (A.data ++ B.data)).Perm (unionById (B.data ++ A.data)) := by
    rw [List.perm_ext_iff_of_nodup
      (List.Nodup.of_map Event.id (nodup_ids_unionById _))
      (List.Nodup.of_map Event.id (nodup_ids_unionById _))]
    intro x
    constructor
    · intro hx
      exact mem_unionById_of_consistent hconsBA
        ((hmemiff x).mpr (mem_of_mem_unionById hx))
    · intro hx
      exact mem_unionById_of_consistent hconsAB
        ((hmemiff x).mp (mem_of_mem_unionById hx))
  have hd : sortEvents (unionById (A.data ++ B.data)) =
      sortEvents (unionById (B.data ++ A.data)) :=
    sortEvents_eq_of_perm hperm
      (nodup_keys_of_nodup_ids _ (nodup_ids_unionById _))
  simp only [mergeEvents]
  rw [if_pos hcompat, if_pos hcompat2, hh, hd]
  exact ⟨rfl, _, rfl⟩

/-- Witness for C8 at two concrete compatible logs sharing one event. -/
theorem mergeEvents_comm_witness :
    isEventTypeCompatible (EventLog.mk ⟨1, "events"⟩
        [⟨"e2", "addTag", "x", "b", "t2"⟩, ⟨"e1", "addTag", "x", "a", "t1"⟩]).header
      (EventLog.mk ⟨2, "events"⟩
        [⟨"e3", "addTag", "y", "c", "t1"⟩, ⟨"e1", "addTag", "x", "a", "t1"⟩]).header = true ∧
    ((EventLog.mk ⟨1, "events"⟩
        [⟨"e2", "addTag", "x", "b", "t2"⟩,
         ⟨"e1", "addTag", "x", "a", "t1"⟩]).data.map Event.id).Nodup ∧
    ((EventLog.mk ⟨2, "events"⟩
        [⟨"e3", "addTag", "y", "c", "t1"⟩,
         ⟨"e1", "addTag", "x", "a", "t1"⟩]).data.map Event.id).Nodup ∧
    (mergeEvents
        (EventLog.mk ⟨1, "events"⟩
          [⟨"e2", "addTag", "x", "b", "t2"⟩, ⟨"e1", "addTag", "x", "a", "t1"⟩])
        (EventLog.mk ⟨2, "events"⟩
          [⟨"e3", "addTag", "y", "c", "t1"⟩, ⟨"e1", "addTag", "x", "a", "t1"⟩]) =
      mergeEvents
        (EventLog.mk ⟨2, "events"⟩
          [⟨"e3", "addTag", "y", "c", "t1"⟩, ⟨"e1", "addTag", "x", "a", "t1"⟩])
        (EventLog.mk ⟨1, "events"⟩
          [⟨"e2", "addTag", "x", "b", "t2"⟩, ⟨"e1", "addTag", "x", "a", "t1"⟩]) ∧
    ∃ merged, mergeEvents
        (EventLog.mk ⟨1, "events"⟩
          [⟨"e2", "addTag", "x", "b", "t2"⟩, ⟨"e1", "addTag", "x", "a", "t1"⟩])
        (EventLog.mk ⟨2, "events"⟩
          [⟨"e3", "addTag", "y", "c", "t1"⟩, ⟨"e1", "addTag", "x", "a", "t1"⟩]) =
      Except.ok merged) :=
  ⟨by decide, by decide, by decide,
   mergeEvents_comm
     (EventLog.mk ⟨1, "events"⟩
       [⟨"e2", "addTag", "x", "b", "t2"⟩, ⟨"e1", "addTag", "x", "a", "t1"⟩])
     (EventLog.mk ⟨2, "events"⟩
       [⟨"e3", "addTag", "y", "c", "t1"⟩, ⟨"e1", "addTag", "x", "a", "t1"⟩])
     (by decide) (by decide) (by decide) (by decide)⟩

end HomeGallery
